import Mathlib

/-!
Verification of the TrackDraw Klatt formant synthesizer core
(src/synth/klatt.py, src/synth/klattnew.py, src/synth/klattinterface.py,
src/TrackDrawData.py) against its natural-language specification.

The Python code is shallowly embedded over `ℚ`.  Float arithmetic is modelled
by exact rational arithmetic; the transcendental functions `exp`/`cos` used in
`calc_coef` are abstracted as function parameters so that every definition
stays computable.  Python's `round` (and `np.round`), which round half to
even, are embedded as `pyRound`.  Fallible operations (out-of-range numpy
indexing, division by zero at setup time) are embedded with `Except`.
-/

namespace TrackDraw

/-- Python's builtin `round` and numpy's `np.round` with no digits argument:
round half to even, here from `ℚ` to `ℤ`. -/
def pyRound (q : ℚ) : ℤ :=
  let f := ⌊q⌋
  let r := q - f
  if r < 1/2 then f
  else if 1/2 < r then f + 1
  else if Even f then f else f + 1

/-- Embeds `klattnew.py`, `Resonator.calc_coef` (and identically `klatt.py`,
`Resonator.calc_coef`): coefficients of the second-order digital resonator.
`expf`, `cosf` and `pi` abstract the float functions `np.exp`/`math.exp`,
`np.cos`/`math.cos` and the constant `np.pi`/`math.pi`.  `dt` is
`self.mast.params["DT"] = 1/FS`.  With `anti = true` the inverted
(antiresonator) coefficients are returned. -/
def calc_coef (expf cosf : ℚ → ℚ) (pi dt : ℚ) (ff bw : ℚ) (anti : Bool) :
    ℚ × ℚ × ℚ :=
  let c := -(expf (-(2*pi*bw*dt)))
  let b := 2*(expf (-(pi*bw*dt))) * (cosf (2*pi*ff*dt))
  let a := 1 - b - c
  if anti then (1/a, -b/a, -c/a) else (a, b, c)

/-- Embeds `klattnew.py`, `Resonator.resonate` with `anti = False`: whole-buffer
resonator with per-sample coefficient vectors `a b c` and input `x`:
`output[0] = a[0]*input[0]`,
`output[1] = a[1]*input[1] + b[1]*output[0]`,
`output[n] = a[n]*input[n] + b[n]*output[n-1] + c[n]*output[n-2]`. -/
def resonate (a b c x : ℕ → ℚ) : ℕ → ℚ
  | 0 => a 0 * x 0
  | 1 => a 1 * x 1 + b 1 * resonate a b c x 0
  | n + 2 => a (n+2) * x (n+2) + b (n+2) * resonate a b c x (n+1)
             + c (n+2) * resonate a b c x n

/-- Embeds `klattnew.py`, `Resonator.resonate` with `anti = True`: whole-buffer
antiresonator, recursing on delayed input:
`output[0] = a[0]*input[0]`,
`output[1] = a[1]*input[1] + b[1]*input[0]`,
`output[n] = a[n]*input[n] + b[n]*input[n-1] + c[n]*input[n-2]`. -/
def resonate_anti (a b c x : ℕ → ℚ) : ℕ → ℚ
  | 0 => a 0 * x 0
  | 1 => a 1 * x 1 + b 1 * x 0
  | n + 2 => a (n+2) * x (n+2) + b (n+2) * x (n+1) + c (n+2) * x n

/-- Embeds `klatt.py`, `Resonator.resonate` with `anti == False`: one interval
(chunk) of the interval-stepped resonator.  `A B C` are the scalar
coefficients of this interval, `x` the interval's input, and
`d = (delay[0], delay[1])` the retained delay state, i.e. the final two
output samples of the previous interval:
`output[0] = a*input[0] + b*delay[1] + c*delay[0]`,
`output[1] = a*input[1] + b*output[0] + c*delay[1]`,
`output[n] = a*input[n] + b*output[n-1] + c*output[n-2]`. -/
def resonate_chunk (A B C : ℚ) (x : ℕ → ℚ) (d : ℚ × ℚ) : ℕ → ℚ
  | 0 => A * x 0 + B * d.2 + C * d.1
  | 1 => A * x 1 + B * resonate_chunk A B C x d 0 + C * d.2
  | n + 2 => A * x (n+2) + B * resonate_chunk A B C x d (n+1)
             + C * resonate_chunk A B C x d n

/-- Embeds `klatt.py`, `Resonator.resonate` with `anti == True`: one interval of the
interval-stepped antiresonator; `d` retains the final two input samples of
the previous interval:
`output[0] = a*input[0] + b*delay[1] + c*delay[0]`,
`output[1] = a*input[1] + b*input[0] + c*delay[1]`,
`output[n] = a*input[n] + b*input[n-1] + c*input[n-2]`. -/
def resonate_chunk_anti (A B C : ℚ) (x : ℕ → ℚ) (d : ℚ × ℚ) : ℕ → ℚ
  | 0 => A * x 0 + B * d.2 + C * d.1
  | 1 => A * x 1 + B * x 0 + C * d.2
  | n + 2 => A * x (n+2) + B * x (n+1) + C * x n

/-- Embeds the `klatt.py` `Resonator` delay state (`anti == False`) after `k`
intervals of length `inv`: `self.delay` starts as `[0]*2` and after each
interval is set to `self.output[inv-2 : inv]`.  `A B C` give the scalar
coefficients used in each interval, `x` the global input. -/
def chunk_delay (A B C : ℕ → ℚ) (x : ℕ → ℚ) (inv : ℕ) : ℕ → ℚ × ℚ
  | 0 => (0, 0)
  | k + 1 =>
      let d := chunk_delay A B C x inv k
      (resonate_chunk (A k) (B k) (C k) (fun t => x (k * inv + t)) d (inv - 2),
       resonate_chunk (A k) (B k) (C k) (fun t => x (k * inv + t)) d (inv - 1))

/-- Global output of the interval-stepped (`klatt.py`) resonator at sample
`i`: interval `i / inv` is run on input slice `x (q*inv + ·)` with the delay
state carried forward from the previous intervals, and sample `i % inv` of
its output is read. -/
def chunked_out (A B C : ℕ → ℚ) (x : ℕ → ℚ) (inv : ℕ) (i : ℕ) : ℚ :=
  resonate_chunk (A (i / inv)) (B (i / inv)) (C (i / inv))
    (fun t => x ((i / inv) * inv + t)) (chunk_delay A B C x inv (i / inv)) (i % inv)

/-- Embeds the `klatt.py` `Resonator` delay state (`anti == True`) after `k` intervals:
`self.delay[:] = self.input[inv-2 : inv]`, i.e. the final two inputs. -/
def chunk_delay_anti (x : ℕ → ℚ) (inv : ℕ) : ℕ → ℚ × ℚ
  | 0 => (0, 0)
  | k + 1 => (x (k * inv + (inv - 2)), x (k * inv + (inv - 1)))

/-- Global output of the interval-stepped (`klatt.py`) antiresonator at
sample `i`. -/
def chunked_out_anti (A B C : ℕ → ℚ) (x : ℕ → ℚ) (inv : ℕ) (i : ℕ) : ℚ :=
  resonate_chunk_anti (A (i / inv)) (B (i / inv)) (C (i / inv))
    (fun t => x ((i / inv) * inv + t)) (chunk_delay_anti x inv (i / inv)) (i % inv)

/-- Embeds `klattnew.py`, `Firstdiff.differentiate`: whole-buffer first difference,
`output[0] = input[0]`, `output[n] = input[n] - input[n-1]`. -/
def firstdiff (x : ℕ → ℚ) : ℕ → ℚ
  | 0 => x 0
  | n + 1 => x (n+1) - x n

/-- Embeds `klatt.py`, `First_Diff.differentiate`: one interval of the
interval-stepped first difference with retained delay `d` (the final input
sample of the previous interval): `output[0] = input[0] - delay[0]`,
`output[n] = input[n] - input[n-1]`. -/
def firstdiff_chunk (x : ℕ → ℚ) (d : ℚ) : ℕ → ℚ
  | 0 => x 0 - d
  | n + 1 => x (n+1) - x n

/-- Embeds the `klatt.py` `First_Diff` delay state before interval `k`: `[0]` for the
first interval, afterwards `self.delay[0] = self.input[-1]`. -/
def firstdiff_delay (x : ℕ → ℚ) (inv : ℕ) : ℕ → ℚ
  | 0 => 0
  | k + 1 => x (k * inv + (inv - 1))

/-- Global output of the interval-stepped (`klatt.py`) first difference at
sample `i`. -/
def chunked_firstdiff (x : ℕ → ℚ) (inv : ℕ) (i : ℕ) : ℚ :=
  firstdiff_chunk (fun t => x ((i / inv) * inv + t)) (firstdiff_delay x inv (i / inv)) (i % inv)

/-- Helper (not itself source code): the uniform two-tap output recursion
with explicit history `d0 = y[-2]`, `d1 = y[-1]` and per-sample coefficient
vectors.  `resonate_chunk` is this recursion with constant coefficients, and
`resonate` is this recursion with zero history. -/
def resAux (a b c x : ℕ → ℚ) (d0 d1 : ℚ) : ℕ → ℚ
  | 0 => a 0 * x 0 + b 0 * d1 + c 0 * d0
  | 1 => a 1 * x 1 + b 1 * resAux a b c x d0 d1 0 + c 1 * d1
  | n + 2 => a (n+2) * x (n+2) + b (n+2) * resAux a b c x d0 d1 (n+1)
             + c (n+2) * resAux a b c x d0 d1 n

/-! ### Switch (klattnew.py) -/

/-- Embeds `np.zeros(n)` as a list of rationals. -/
def np_zeros (n : ℕ) : List ℚ := List.replicate n 0

/-- One iteration of the loop in `klattnew.py`, `Switch.operate`, operating
in place on the pair of output arrays `outs` at sample `n`:
`if choice[n] == 0: output[0][n] = input[n]; output[1][n] = 0`
`elif choice[n] == 1: output[0][n] = 0; output[1][1] = input[n]`
(the write to index `1` of `output[1]` is exactly what the code says),
any other value of `choice[n]` leaves both arrays untouched. -/
def switch_step (choice input : ℕ → ℚ) (outs : List ℚ × List ℚ) (n : ℕ) :
    List ℚ × List ℚ :=
  if choice n = 0 then (outs.1.set n (input n), outs.2.set n 0)
  else if choice n = 1 then (outs.1.set n 0, outs.2.set 1 (input n))
  else outs

/-- The loop of `Switch.operate` over samples `n, n+1, ...` with `rem`
iterations remaining. -/
def switch_go (choice input : ℕ → ℚ) : ℕ → ℕ → List ℚ × List ℚ → List ℚ × List ℚ
  | _, 0, outs => outs
  | n, rem+1, outs => switch_go choice input (n+1) rem (switch_step choice input outs n)

/-- Embeds `klattnew.py`, `Switch.operate` (up to and excluding the final `send()`):
runs the routing loop for `n in range(N_SAMP)` on the freshly initialized
pair of zero output buffers. -/
def switch_operate (choice input : ℕ → ℚ) (N : ℕ) : List ℚ × List ℚ :=
  switch_go choice input 0 N (np_zeros N, np_zeros N)

/-- The `output` attribute of a `klattnew.py` `Switch`: after `__init__` it
is a pair (Python list) of two `np.zeros(N_SAMP)` buffers; after `send()`
has run it is a single flat `np.zeros(N_SAMP)` vector. -/
inductive SwitchState
  | pair (o0 o1 : List ℚ)
  | flat (o : List ℚ)
deriving DecidableEq

/-- Embeds `klattnew.py`, `Switch.__init__`: fresh output state. -/
def switch_init (N : ℕ) : SwitchState := .pair (np_zeros N) (np_zeros N)

/-- Embeds `klattnew.py`, `Switch.operate` followed by its `send()`, acting on the
switch's output state.  On a `pair` state the routing loop runs and `send()`
then delivers `output[0]`/`output[1]` to the two destinations and replaces
`self.output` by the single flat vector `np.zeros(N_SAMP)`.  On a `flat`
state every execution path raises: with `N_SAMP ≥ 1`, `output[0]` is the
scalar `0.0`, so the loop body's `self.output[0][n] = ...` /
`self.output[1][1] = ...` (when `choice[n]` is 0 or 1) and `send()`'s
`self.output[0][:]` (otherwise) all index a scalar, and with `N_SAMP = 0`
`send()`'s `self.output[0]` is out of bounds; the returned pair is the pair
of signals `send()` delivers. -/
def switch_operate_st (choice input : ℕ → ℚ) (N : ℕ) :
    SwitchState → Except String (SwitchState × (List ℚ × List ℚ))
  | .pair o0 o1 =>
      let outs := switch_go choice input 0 N (o0, o1)
      .ok (.flat (np_zeros N), outs)
  | .flat _ => .error "IndexError"

/-! ### Impulse generator (klattnew.py / klatt.py) -/

/-- Embeds `klattnew.py`, `Impulse`: the value of `self.last_glot_pulse` when the
loop of `impulse_gen` reaches sample `n` (it is initialized to `0` and set
to `n` whenever sample `n` fires).  `glot_period[n] = np.round(FS/F0[n])`.
`klatt.py`'s `Impulse.impulse_gen` maintains the same state across
intervals via `self.master.last_glot_pulse` with global sample index
`current_ind + n`. -/
def last_glot_pulse (FS : ℚ) (F0 : ℕ → ℚ) : ℕ → ℤ
  | 0 => 0
  | n + 1 =>
      if (n : ℤ) - last_glot_pulse FS F0 n ≥ pyRound (FS / F0 n)
      then n else last_glot_pulse FS F0 n

/-- Embeds `klattnew.py`, `Impulse.impulse_gen`: the output at sample `n`: `1` when
`n - last_glot_pulse >= glot_period[n]`, else `0`. -/
def impulse_out (FS : ℚ) (F0 : ℕ → ℚ) (n : ℕ) : ℚ :=
  if (n : ℤ) - last_glot_pulse FS F0 n ≥ pyRound (FS / F0 n) then 1 else 0

/-! ### Normalizer (klattnew.py and klatt.py) -/

/-- Embeds `np.max` / Python's builtin `max` on a list (both error on an empty
input, embedded here as the junk value `0`). -/
def np_max : List ℚ → ℚ
  | [] => 0
  | h :: t => t.foldl max h

/-- Embeds `klattnew.py`, `Normalizer.normalize`:
`output = input / np.max(np.abs(input))`. -/
def normalize_new (x : List ℚ) : List ℚ :=
  x.map (fun v => v / np_max (x.map (fun w => |w|)))

/-- Embeds `klatt.py`, `Normalizer.normalize`: `maximum = max(self.input[:])` (the
*signed* maximum — no absolute value) and `output[n] = input[n]/maximum`. -/
def normalize_old (x : List ℚ) : List ℚ :=
  x.map (fun v => v / np_max x)

/-! ### Output lengths (klattinterface.py / klattnew.py / klatt.py) -/

/-- Embeds `klattinterface.py`, `NTVParam1980.__init__`:
`self.N_SAMP = round(FS*DUR)` (Python banker's rounding). -/
def N_SAMP (FS DUR : ℚ) : ℤ := pyRound (FS * DUR)

/-- Embeds `klattnew.py`, `KlattSynth.setup`/`run`: the output buffer is
`np.zeros(self.params["N_SAMP"])` and `run` writes `output_module.output`
(also of length `N_SAMP`) into it, so the whole-buffer engine's waveform
length is `N_SAMP = round(FS*DUR)`. -/
def klattnew_output_len (FS DUR : ℚ) : ℤ := N_SAMP FS DUR

/-- Embeds `klatt.py`, `klatt_bridge`: `n_inv = round(dur*fs/inv_samp)`. -/
def n_inv (fs dur : ℚ) (inv_samp : ℕ) : ℤ := pyRound (dur * fs / inv_samp)

/-- Embeds `klatt.py`, `Klatt_Synth.__init__`:
`self.output = [0] * self.n_inv*self.inv_samp`, so the interval-stepped
engine's waveform length is `n_inv * inv_samp`. -/
def klatt_output_len (fs dur : ℚ) (inv_samp : ℕ) : ℤ :=
  n_inv fs dur inv_samp * inv_samp

/-! ### Engine section scheduling (klattnew.py / klatt.py) -/

/-- Labels for the six synthesizer sections. -/
inductive SynthSection
  | voice | noise | cascade | parallel | radiation | output
deriving DecidableEq

/-- Embeds `klattnew.py`, `KlattSynth.setup`/`run`: `self.sections = [self.voice,
self.noise, self.cascade, self.parallel, self.radiation,
self.output_module]` and `run()` does `for section in self.sections:
section.run()`, so each run executes exactly this list in this order. -/
def klattnew_sections : List SynthSection :=
  [.voice, .noise, .cascade, .parallel, .radiation, .output]

/-- Embeds `klatt.py`, `Klatt_Synth.synth`: the sections run in one interval:
`voice.run(); noise.run(); if sw == 0: cascade.run() elif sw == 1:
parallel.run(); radiation.run(); output_module.run()`. -/
def klatt_sections_run (sw : ℚ) : List SynthSection :=
  [.voice, .noise]
    ++ (if sw = 0 then [.cascade] else if sw = 1 then [.parallel] else [])
    ++ [.radiation, .output]

/-! ### Setup and in-run failures (klattnew.py / klattinterface.py) -/

/-- Embeds `klattnew.py`, `KlattSynth.setup`: the only operations that can fail,
in program order: `np.zeros(N_SAMP)` raises `ValueError` for a negative
size, and `DT = 1/FS` raises `ZeroDivisionError` when the integer `FS` is
`0`.  No parameter validation of any kind is performed (no length checks,
no sign checks on `F0`): for any other values setup completes and the
sections are built. -/
def klattSynth_setup (FS N_SAMP : ℤ) : Except String Unit :=
  if N_SAMP < 0 then .error "ValueError"
  else if FS = 0 then .error "ZeroDivisionError"
  else .ok ()

/-- numpy 1-D array indexing `a[n]`: raises `IndexError` when `n` is out of
range. -/
def np_get (l : List ℚ) (n : ℕ) : Except String ℚ :=
  if h : n < l.length then .ok (l.get ⟨n, h⟩) else .error "IndexError"

/-- The loop of `klattnew.py`, `Impulse.impulse_gen`, when `F0` is an array
whose length may differ from `N_SAMP`: `glot_period = np.round(FS/F0)` has
`len(F0)` entries, and the loop body reads `glot_period[n]` for
`n in range(N_SAMP)`, raising `IndexError` as soon as `n` reaches
`len(F0)`.  `n` is the next sample, `rem` the remaining iteration count,
`last` the current `last_glot_pulse`. -/
def impulse_gen_go (FS : ℚ) (F0 : List ℚ) : ℕ → ℕ → ℤ → Except String (List ℚ)
  | _, 0, _ => .ok []
  | n, rem+1, last =>
      match np_get F0 n with
      | .error e => .error e
      | .ok p =>
          let fire : Bool := (n : ℤ) - last ≥ pyRound (FS / p)
          match impulse_gen_go FS F0 (n+1) rem (if fire then n else last) with
          | .error e => .error e
          | .ok rest => .ok ((if fire then 1 else 0) :: rest)

/-- Embeds `klattnew.py`, `Impulse.impulse_gen` run for `N_SAMP` samples over an
`F0` array of arbitrary length. -/
def impulse_gen_checked (FS : ℚ) (F0 : List ℚ) (N_SAMP : ℕ) :
    Except String (List ℚ) :=
  impulse_gen_go FS F0 0 N_SAMP 0

/-! ### Track interpolation (klattinterface.py / TrackDrawData.py) -/

/-- Embeds `np.linspace a b n`: `n` evenly spaced points from `a` to `b`
inclusive (`[a]` when `n = 1`, `[]` when `n = 0`). -/
def np_linspace (a b : ℚ) (n : ℕ) : List ℚ :=
  if n = 1 then [a]
  else (List.range n).map (fun (i : ℕ) => a + (b - a) * (i : ℚ) / ((n : ℚ) - 1))

/-- Embeds `np.interp t xp fp`: one-dimensional linear interpolation of the points
`(xp i, fp i)` (with `xp` increasing) evaluated at `t`, clamping to
`fp.head`/`fp.getLast` outside the grid. -/
def np_interp (t : ℚ) : List ℚ → List ℚ → ℚ
  | [_], [y] => y
  | x1 :: x2 :: xs, y1 :: y2 :: ys =>
      if t ≤ x1 then y1
      else if t ≤ x2 then y1 + (t - x1) * (y2 - y1) / (x2 - x1)
      else np_interp t (x2 :: xs) (y2 :: ys)
  | _, _ => 0

/-- Embeds `klattinterface.py`, `klatt_trackterpolate` for a `Track` argument (and
identically `TrackDrawData.py`, `Track.interpolate`):
`x = np.linspace(0, 1, len(track))`, `xvals = np.linspace(0, 1, n_samp)`,
`return np.interp(xvals, x, track.points)`. -/
def klatt_trackterpolate (track : List ℚ) (n_samp : ℕ) : List ℚ :=
  (np_linspace 0 1 n_samp).map
    (fun t => np_interp t (np_linspace 0 1 track.length) track)

/-! ### Chunked/whole-buffer equivalence of the recursive filters -/

/-- One `klatt.py` resonator interval is the uniform two-tap recursion with
the retained delay pair as history and constant coefficients. -/
theorem resonate_chunk_eq_resAux (A B C : ℚ) (x : ℕ → ℚ) (d : ℚ × ℚ) :
    ∀ n, resonate_chunk A B C x d n
      = resAux (fun _ => A) (fun _ => B) (fun _ => C) x d.1 d.2 n := by
  intro n
  induction n using Nat.strong_induction_on with
  | _ n ih =>
    match n with
    | 0 => simp [resonate_chunk, resAux]
    | 1 => simp [resonate_chunk, resAux]
    | n + 2 =>
      simp only [resonate_chunk, resAux]
      rw [ih (n+1) (by omega), ih n (by omega)]

/-- The `klattnew.py` whole-buffer resonator is the uniform two-tap
recursion with zero history. -/
theorem resonate_eq_resAux (a b c x : ℕ → ℚ) :
    ∀ n, resonate a b c x n = resAux a b c x 0 0 n := by
  intro n
  induction n using Nat.strong_induction_on with
  | _ n ih =>
    match n with
    | 0 => simp [resonate, resAux]
    | 1 => simp [resonate, resAux]
    | n + 2 =>
      simp only [resonate, resAux]
      rw [ih (n+1) (by omega), ih n (by omega)]

/-- The recursion `resAux` at sample `n` only depends on the coefficients and input at
indices `≤ n`. -/
theorem resAux_congr (a b c x a' b' c' x' : ℕ → ℚ) (d0 d1 : ℚ) :
    ∀ n, (∀ i, i ≤ n → a i = a' i ∧ b i = b' i ∧ c i = c' i ∧ x i = x' i) →
      resAux a b c x d0 d1 n = resAux a' b' c' x' d0 d1 n := by
  intro n
  induction n using Nat.strong_induction_on with
  | _ n ih =>
    intro h
    match n with
    | 0 =>
      obtain ⟨ha, hb, hc, hx⟩ := h 0 (le_refl 0)
      simp [resAux, ha, hb, hc, hx]
    | 1 =>
      obtain ⟨ha0, hb0, hc0, hx0⟩ := h 0 (by omega)
      obtain ⟨ha1, hb1, hc1, hx1⟩ := h 1 (le_refl 1)
      simp [resAux, ha0, hb0, hc0, hx0, ha1, hb1, hc1, hx1]
    | n + 2 =>
      obtain ⟨ha, hb, hc, hx⟩ := h (n+2) (le_refl _)
      simp only [resAux]
      rw [ih (n+1) (by omega) (fun i hi => h i (by omega)),
          ih n (by omega) (fun i hi => h i (by omega)), ha, hb, hc, hx]

/-- Gluing lemma: restarting the uniform recursion at sample `j+2` with the
previous two outputs as history reproduces the original sequence. -/
theorem resAux_shift (a b c x : ℕ → ℚ) (d0 d1 : ℚ) (j : ℕ) :
    ∀ k, resAux (fun i => a (j+2+i)) (fun i => b (j+2+i)) (fun i => c (j+2+i))
        (fun i => x (j+2+i)) (resAux a b c x d0 d1 j) (resAux a b c x d0 d1 (j+1)) k
      = resAux a b c x d0 d1 (j+2+k) := by
  intro k
  induction k using Nat.strong_induction_on with
  | _ k ih =>
    match k with
    | 0 =>
      conv_lhs => rw [resAux]
      have h0 : j + 2 + 0 = j + 2 := by omega
      rw [h0]
      conv_rhs => rw [resAux]
    | 1 =>
      conv_lhs => rw [resAux]
      rw [ih 0 (by omega)]
      have h0 : j + 2 + 0 = j + 1 + 1 := by omega
      have h2 : j + 2 + 1 = j + 1 + 2 := by omega
      rw [h0, h2]
      conv_rhs => rw [resAux]
    | k + 2 =>
      conv_lhs => rw [resAux]
      rw [ih (k+1) (by omega), ih k (by omega)]
      have h1 : j + 2 + (k + 1) = j + 2 + k + 1 := by omega
      have h2 : j + 2 + (k + 2) = j + 2 + k + 2 := by omega
      rw [h1, h2]
      conv_rhs => rw [resAux]

/-- Correctness of one interval of the chunked (`klatt.py`) resonator run
with carried delay state: its local output at `t` is the whole-buffer
(`klattnew.py`) recursion's output at global sample `q*inv + t`, where the
whole-buffer coefficient vectors take the chunk-constant values. -/
theorem chunk_correct (A B C : ℕ → ℚ) (x : ℕ → ℚ) (inv : ℕ) (hinv : 2 ≤ inv) :
    ∀ q t, t < inv →
      resonate_chunk (A q) (B q) (C q) (fun s => x (q * inv + s))
          (chunk_delay A B C x inv q) t
        = resAux (fun n => A (n / inv)) (fun n => B (n / inv))
            (fun n => C (n / inv)) x 0 0 (q * inv + t) := by
  intro q
  induction q with
  | zero =>
      intro t ht
      rw [resonate_chunk_eq_resAux]
      show resAux _ _ _ _ (0:ℚ) (0:ℚ) t = _
      rw [resAux_congr (fun _ => A 0) (fun _ => B 0) (fun _ => C 0)
            (fun s => x (0 * inv + s))
            (fun n => A (n / inv)) (fun n => B (n / inv)) (fun n => C (n / inv))
            x 0 0 t ?agree]
      · show _ = resAux _ _ _ _ _ _ (0 * inv + t)
        have h0 : 0 * inv + t = t := by omega
        rw [h0]
      case agree =>
        intro i hi
        have hlt : i < inv := lt_of_le_of_lt hi ht
        have hdiv : i / inv = 0 := Nat.div_eq_of_lt hlt
        refine ⟨?_, ?_, ?_, ?_⟩ <;> simp [hdiv]
  | succ q ihq =>
      intro t ht
      have hmul : (q + 1) * inv = q * inv + inv := by ring
      obtain ⟨j, hj⟩ : ∃ j, (q + 1) * inv = j + 2 :=
        ⟨(q + 1) * inv - 2, by omega⟩
      have hd : chunk_delay A B C x inv (q+1)
          = (resAux (fun n => A (n / inv)) (fun n => B (n / inv))
               (fun n => C (n / inv)) x 0 0 (q * inv + (inv - 2)),
             resAux (fun n => A (n / inv)) (fun n => B (n / inv))
               (fun n => C (n / inv)) x 0 0 (q * inv + (inv - 1))) := by
        rw [chunk_delay]
        rw [ihq (inv - 2) (by omega), ihq (inv - 1) (by omega)]
      rw [hd, resonate_chunk_eq_resAux]
      dsimp only
      have hj0 : q * inv + (inv - 2) = j := by omega
      have hj1 : q * inv + (inv - 1) = j + 1 := by omega
      rw [hj0, hj1]
      rw [resAux_congr (fun _ => A (q+1)) (fun _ => B (q+1)) (fun _ => C (q+1))
            (fun s => x ((q + 1) * inv + s))
            (fun i => A ((j + 2 + i) / inv)) (fun i => B ((j + 2 + i) / inv))
            (fun i => C ((j + 2 + i) / inv)) (fun i => x (j + 2 + i))
            _ _ t ?agree2]
      · rw [resAux_shift (fun n => A (n / inv)) (fun n => B (n / inv))
              (fun n => C (n / inv)) x 0 0 j t, hj]
      case agree2 =>
        intro i hi
        have hlt : i < inv := lt_of_le_of_lt hi ht
        have hdivq : (j + 2 + i) / inv = q + 1 := by
          rw [← hj]
          have hcomm : (q + 1) * inv + i = i + (q + 1) * inv := by ring
          rw [hcomm, Nat.add_mul_div_right _ _ (show 0 < inv by omega),
              Nat.div_eq_of_lt hlt]
          omega
        exact ⟨by simp [hdivq], by simp [hdivq], by simp [hdivq], by simp [hj]⟩

/-- Division fact relating chunk-local indices to global sample indices. -/
theorem div_chunk_index (inv q s : ℕ) (hinv : 0 < inv) (hs : s < inv) :
    (q * inv + s) / inv = q := by
  have h1 : q * inv + s = s + q * inv := by ring
  rw [h1, Nat.add_mul_div_right _ _ hinv, Nat.div_eq_of_lt hs]
  omega

/-- One interval of the chunked (`klatt.py`) antiresonator with carried
delay state agrees with the whole-buffer (`klattnew.py`) antiresonator. -/
theorem resonate_chunk_anti_correct (A B C : ℕ → ℚ) (x : ℕ → ℚ) (inv : ℕ)
    (hinv : 2 ≤ inv) (q t : ℕ) (ht : t < inv) :
    resonate_chunk_anti (A q) (B q) (C q) (fun s => x (q * inv + s))
        (chunk_delay_anti x inv q) t
      = resonate_anti (fun n => A (n / inv)) (fun n => B (n / inv))
          (fun n => C (n / inv)) x (q * inv + t) := by
  match q, t with
  | 0, 0 =>
      simp [resonate_chunk_anti, resonate_anti, chunk_delay_anti]
  | 0, 1 =>
      simp [resonate_chunk_anti, resonate_anti, chunk_delay_anti,
        Nat.div_eq_of_lt (show 1 < inv by omega)]
  | 0, t+2 =>
      simp only [resonate_chunk_anti, chunk_delay_anti, zero_mul, zero_add]
      conv_rhs => rw [resonate_anti]
      simp [Nat.div_eq_of_lt (show t + 2 < inv from ht)]
  | q+1, 0 =>
      have hmul : (q + 1) * inv = q * inv + inv := by ring
      obtain ⟨m, hm⟩ : ∃ m, (q + 1) * inv + 0 = m + 2 :=
        ⟨q * inv + (inv - 2), by omega⟩
      have hd2 : (m + 2) / inv = q + 1 := by
        rw [← hm]; exact div_chunk_index inv (q+1) 0 (by omega) (by omega)
      have e1 : q * inv + (inv - 1) = m + 1 := by omega
      have e2 : q * inv + (inv - 2) = m := by omega
      simp only [resonate_chunk_anti, chunk_delay_anti]
      rw [hm, e1, e2]
      conv_rhs => rw [resonate_anti]
      simp [hd2]
  | q+1, 1 =>
      have hmul : (q + 1) * inv = q * inv + inv := by ring
      obtain ⟨m, hm⟩ : ∃ m, (q + 1) * inv + 1 = m + 2 :=
        ⟨q * inv + (inv - 1), by omega⟩
      have hd2 : (m + 2) / inv = q + 1 := by
        rw [← hm]; exact div_chunk_index inv (q+1) 1 (by omega) (by omega)
      have e0 : (q + 1) * inv + 0 = m + 1 := by omega
      have e1 : q * inv + (inv - 1) = m := by omega
      simp only [resonate_chunk_anti, chunk_delay_anti]
      rw [hm, e0, e1]
      conv_rhs => rw [resonate_anti]
      simp [hd2]
  | q, t+2 =>
      obtain ⟨m, hm⟩ : ∃ m, q * inv + (t + 2) = m + 2 := ⟨q * inv + t, by omega⟩
      have hd2 : (m + 2) / inv = q := by
        rw [← hm]; exact div_chunk_index inv q (t+2) (by omega) ht
      have e1 : q * inv + (t + 1) = m + 1 := by omega
      have e2 : q * inv + t = m := by omega
      simp only [resonate_chunk_anti, chunk_delay_anti]
      rw [hm, e1, e2]
      conv_rhs => rw [resonate_anti]
      simp [hd2]

/-- One interval of the chunked (`klatt.py`) first difference with carried
delay state agrees with the whole-buffer (`klattnew.py`) first difference. -/
theorem firstdiff_chunk_correct (x : ℕ → ℚ) (inv : ℕ) (hinv : 2 ≤ inv)
    (q t : ℕ) (ht : t < inv) :
    firstdiff_chunk (fun s => x (q * inv + s)) (firstdiff_delay x inv q) t
      = firstdiff x (q * inv + t) := by
  match q, t with
  | 0, 0 => simp [firstdiff_chunk, firstdiff_delay, firstdiff]
  | q+1, 0 =>
      have hmul : (q + 1) * inv = q * inv + inv := by ring
      obtain ⟨m, hm⟩ : ∃ m, (q + 1) * inv + 0 = m + 1 :=
        ⟨q * inv + (inv - 1), by omega⟩
      have e1 : q * inv + (inv - 1) = m := by omega
      simp only [firstdiff_chunk, firstdiff_delay]
      rw [hm, e1]
      conv_rhs => rw [firstdiff]
  | q, t+1 =>
      obtain ⟨m, hm⟩ : ∃ m, q * inv + (t + 1) = m + 1 := ⟨q * inv + t, by omega⟩
      have e1 : q * inv + t = m := by omega
      simp only [firstdiff_chunk]
      rw [hm, e1]
      conv_rhs => rw [firstdiff]

/-- Decomposition of a global sample index into chunk and offset. -/
theorem chunk_index_decomp (inv i : ℕ) (hinv : 0 < inv) :
    i / inv * inv + i % inv = i := by
  rw [mul_comm]; exact Nat.div_add_mod i inv

/-- Chunked (`klatt.py`) resonator equals whole-buffer (`klattnew.py`)
resonator on the same input and coefficients. -/
theorem chunked_out_eq (A B C : ℕ → ℚ) (x : ℕ → ℚ) (inv : ℕ)
    (hinv : 2 ≤ inv) (i : ℕ) :
    chunked_out A B C x inv i
      = resonate (fun n => A (n / inv)) (fun n => B (n / inv))
          (fun n => C (n / inv)) x i := by
  unfold chunked_out
  rw [chunk_correct A B C x inv hinv (i / inv) (i % inv)
        (Nat.mod_lt i (show 0 < inv by omega)),
      chunk_index_decomp inv i (by omega),
      resonate_eq_resAux]

/-- Chunked (`klatt.py`) antiresonator equals whole-buffer (`klattnew.py`)
antiresonator on the same input and coefficients. -/
theorem chunked_out_anti_eq (A B C : ℕ → ℚ) (x : ℕ → ℚ) (inv : ℕ)
    (hinv : 2 ≤ inv) (i : ℕ) :
    chunked_out_anti A B C x inv i
      = resonate_anti (fun n => A (n / inv)) (fun n => B (n / inv))
          (fun n => C (n / inv)) x i := by
  unfold chunked_out_anti
  rw [resonate_chunk_anti_correct A B C x inv hinv (i / inv) (i % inv)
        (Nat.mod_lt i (show 0 < inv by omega)),
      chunk_index_decomp inv i (by omega)]

/-- Chunked (`klatt.py`) first difference equals whole-buffer
(`klattnew.py`) first difference on the same input. -/
theorem chunked_firstdiff_eq (x : ℕ → ℚ) (inv : ℕ) (hinv : 2 ≤ inv) (i : ℕ) :
    chunked_firstdiff x inv i = firstdiff x i := by
  unfold chunked_firstdiff
  rw [firstdiff_chunk_correct x inv hinv (i / inv) (i % inv)
        (Nat.mod_lt i (show 0 < inv by omega)),
      chunk_index_decomp inv i (by omega)]

/-! ### Claim C1 -/

/-- C1: for per-sample center-frequency and bandwidth values the Resonator
computes `c = -exp(-2π·bw·dt)`, `b = 2·exp(-π·bw·dt)·cos(2π·ff·dt)`,
`a = 1 - b - c` (with `exp`, `cos`, `π` abstracted as parameters of the
embedding), the Antiresonator uses the inverted coefficients `a' = 1/a`,
`b' = -b/a`, `c' = -c/a`, the resonator output obeys
`y[n] = a[n]·x[n] + b[n]·y[n-1] + c[n]·y[n-2]` on its own delayed output
while the antiresonator recurses on delayed input
`y[n] = a'[n]·x[n] + b'[n]·x[n-1] + c'[n]·x[n-2]`, and missing history at
the first two samples is taken from the retained delay state (`klatt.py`)
or is zero at the very first samples of a fresh run (`klattnew.py`). -/
theorem C1_resonator_coefficients_recursion :
    (∀ (expf cosf : ℚ → ℚ) (pi dt ff bw a b c : ℚ),
        calc_coef expf cosf pi dt ff bw false = (a, b, c) →
          c = -(expf (-(2*pi*bw*dt)))
          ∧ b = 2*(expf (-(pi*bw*dt))) * (cosf (2*pi*ff*dt))
          ∧ a = 1 - b - c)
    ∧ (∀ (expf cosf : ℚ → ℚ) (pi dt ff bw a b c : ℚ),
        calc_coef expf cosf pi dt ff bw false = (a, b, c) →
          calc_coef expf cosf pi dt ff bw true = (1/a, -b/a, -c/a))
    ∧ (∀ (a b c x : ℕ → ℚ) (n : ℕ),
        resonate a b c x (n+2)
          = a (n+2) * x (n+2) + b (n+2) * resonate a b c x (n+1)
            + c (n+2) * resonate a b c x n)
    ∧ (∀ a b c x : ℕ → ℚ,
        resonate a b c x 0 = a 0 * x 0
        ∧ resonate a b c x 1 = a 1 * x 1 + b 1 * resonate a b c x 0 + c 1 * 0)
    ∧ (∀ (a b c x : ℕ → ℚ) (n : ℕ),
        resonate_anti a b c x (n+2)
          = a (n+2) * x (n+2) + b (n+2) * x (n+1) + c (n+2) * x n)
    ∧ (∀ a b c x : ℕ → ℚ,
        resonate_anti a b c x 0 = a 0 * x 0
        ∧ resonate_anti a b c x 1 = a 1 * x 1 + b 1 * x 0 + c 1 * 0)
    ∧ (∀ (A B C : ℚ) (x : ℕ → ℚ) (d : ℚ × ℚ),
        resonate_chunk A B C x d 0 = A * x 0 + B * d.2 + C * d.1
        ∧ resonate_chunk A B C x d 1
            = A * x 1 + B * resonate_chunk A B C x d 0 + C * d.2
        ∧ ∀ n, resonate_chunk A B C x d (n+2)
            = A * x (n+2) + B * resonate_chunk A B C x d (n+1)
              + C * resonate_chunk A B C x d n)
    ∧ (∀ (A B C : ℚ) (x : ℕ → ℚ) (d : ℚ × ℚ),
        resonate_chunk_anti A B C x d 0 = A * x 0 + B * d.2 + C * d.1
        ∧ resonate_chunk_anti A B C x d 1 = A * x 1 + B * x 0 + C * d.2
        ∧ ∀ n, resonate_chunk_anti A B C x d (n+2)
            = A * x (n+2) + B * x (n+1) + C * x n) := by
  refine ⟨?_, ?_, ?_, ?_, ?_, ?_, ?_, ?_⟩
  · intro expf cosf pi dt ff bw a b c h
    simp only [calc_coef, Bool.false_eq_true, if_false, Prod.mk.injEq] at h
    obtain ⟨ha, hb, hc⟩ := h
    exact ⟨hc.symm, hb.symm, by rw [← ha, ← hb, ← hc]⟩
  · intro expf cosf pi dt ff bw a b c h
    simp only [calc_coef, Bool.false_eq_true, if_false, Prod.mk.injEq] at h
    obtain ⟨ha, hb, hc⟩ := h
    simp only [calc_coef, if_true]
    rw [← hb, ← hc, ha]
  · intro a b c x n
    conv_lhs => rw [resonate]
  · intro a b c x
    exact ⟨by rw [resonate], by simp [resonate]⟩
  · intro a b c x n
    conv_lhs => rw [resonate_anti]
  · intro a b c x
    exact ⟨by rw [resonate_anti], by rw [resonate_anti, mul_zero, add_zero]⟩
  · intro A B C x d
    exact ⟨by rw [resonate_chunk], by simp [resonate_chunk],
           fun n => by conv_lhs => rw [resonate_chunk]⟩
  · intro A B C x d
    exact ⟨by rw [resonate_chunk_anti], by rw [resonate_chunk_anti],
           fun n => by conv_lhs => rw [resonate_chunk_anti]⟩

/-- Witness for C1: the coefficient relations evaluated at a concrete
instance (`expf` and `cosf` instantiated with the identity, `pi = 3`,
`dt = ff = bw = 1`). -/
theorem C1_resonator_coefficients_recursion_witness :
    calc_coef (fun q => q) (fun q => q) 3 1 1 1 false = (31, -36, 6)
    ∧ calc_coef (fun q => q) (fun q => q) 3 1 1 1 true
        = (1/31, -(-36)/31, -6/31) :=
  ⟨by norm_num [calc_coef],
   C1_resonator_coefficients_recursion.2.1 (fun q => q) (fun q => q)
     3 1 1 1 31 (-36) 6 (by norm_num [calc_coef])⟩

/-! ### Claim C2 -/

/-- C2: synthesizing in fixed-size chunks of `inv_samp` samples with the
filter delay state (the resonator's last two output samples, the
antiresonator's and first-difference filter's last input samples) carried
forward unchanged across chunk boundaries produces the same waveform as a
single whole-buffer pass: the chunked Resonator / Antiresonator /
First_Diff of `klatt.py` compute the same sequences as the whole-buffer
ones of `klattnew.py` given the same input and coefficients. -/
theorem C2_chunked_whole_buffer_equiv (A B C : ℕ → ℚ) (x : ℕ → ℚ)
    (inv : ℕ) (hinv : 2 ≤ inv) :
    (∀ i, chunked_out A B C x inv i
        = resonate (fun n => A (n / inv)) (fun n => B (n / inv))
            (fun n => C (n / inv)) x i)
    ∧ (∀ i, chunked_out_anti A B C x inv i
        = resonate_anti (fun n => A (n / inv)) (fun n => B (n / inv))
            (fun n => C (n / inv)) x i)
    ∧ (∀ i, chunked_firstdiff x inv i = firstdiff x i) :=
  ⟨chunked_out_eq A B C x inv hinv, chunked_out_anti_eq A B C x inv hinv,
   chunked_firstdiff_eq x inv hinv⟩

/-- Witness for C2: the resonator equivalence at chunk length 2, sample 5,
for concrete coefficient schedules and input. -/
theorem C2_chunked_whole_buffer_equiv_witness :
    (2 : ℕ) ≤ 2
    ∧ chunked_out (fun k => (k : ℚ) + 1) (fun k => (k : ℚ) / 2)
        (fun k => (k : ℚ) - 1) (fun n => (n : ℚ) + 2) 2 5
      = resonate (fun n => ((n / 2 : ℕ) : ℚ) + 1) (fun n => ((n / 2 : ℕ) : ℚ) / 2)
          (fun n => ((n / 2 : ℕ) : ℚ) - 1) (fun n => (n : ℚ) + 2) 5 :=
  ⟨by norm_num,
   (C2_chunked_whole_buffer_equiv (fun k => (k : ℚ) + 1) (fun k => (k : ℚ) / 2)
      (fun k => (k : ℚ) - 1) (fun n => (n : ℚ) + 2) 2 (by norm_num)).1 5⟩

/-! ### Claim C3 -/

/-- C3: evaluation of `Switch.operate` at the failing input `SW = [0,0,1]`,
`input = [5,5,5]`, `N_SAMP = 3`.  The write for `SW[2] = 1` lands on
`output[1][1]` (fixed index 1) instead of `output[1][2]`, so the result is
`([5,5,0], [0,5,0])`: both output buffers are nonzero at sample 1
(exclusivity violated, and `output[1][1]` does not depend only on `SW[1]`),
and `input[2]` is not routed to `output[1][2]`, which stays `0`. -/
theorem C3_switch_routing_eval :
    switch_operate (fun n => if n = 2 then 1 else 0) (fun _ => 5) 3
      = ([5, 5, 0], [0, 5, 0])
    ∧ (switch_operate (fun n => if n = 2 then 1 else 0) (fun _ => 5) 3).1.getD 1 0 ≠ 0
    ∧ (switch_operate (fun n => if n = 2 then 1 else 0) (fun _ => 5) 3).2.getD 1 0 ≠ 0
    ∧ (switch_operate (fun n => if n = 2 then 1 else 0) (fun _ => 5) 3).2.getD 2 0 = 0 := by
  refine ⟨by decide, by decide, by decide, by decide⟩

/-! ### Claim C10 -/

/-- C10: the `klattnew.py` Switch is single-shot.  A first `operate()` on a
fresh Switch succeeds, and its `send()` replaces the pair of output buffers
with a single flat zero vector; any second `operate()` on the same Switch
instance then fails (`output[0][n]` / `output[1][1]` / `output[0][:]`
index a scalar) instead of producing output — hence a second
`KlattSynth.run()` on the same synthesizer fails rather than producing a
waveform. -/
theorem C10_switch_single_shot (N : ℕ) (choice input choice2 input2 : ℕ → ℚ) :
    switch_operate_st choice input N (switch_init N)
      = .ok (.flat (np_zeros N), switch_go choice input 0 N (np_zeros N, np_zeros N))
    ∧ switch_operate_st choice2 input2 N (.flat (np_zeros N))
      = .error "IndexError" :=
  ⟨rfl, rfl⟩

/-! ### Claim C4 -/

/-- The impulse period for `FS = 10000`, `F0 = 100` is 100 samples. -/
theorem pyRound_period_100 : pyRound ((10000 : ℚ) / 100) = 100 := by
  norm_num [pyRound]

/-- Closed form of `last_glot_pulse` for constant `F0 = 100`, `FS = 10000`:
the last fired index below `n` is the largest positive multiple of 100 that
is `< n` (and `0` before the first impulse). -/
theorem last_glot_pulse_const (n : ℕ) :
    last_glot_pulse 10000 (fun _ => 100) n = ((100 * ((n - 1) / 100) : ℕ) : ℤ) := by
  induction n with
  | zero => simp [last_glot_pulse]
  | succ n ih =>
      rw [last_glot_pulse, ih, pyRound_period_100]
      split
      · next h => push_cast at h ⊢; omega
      · next h => push_cast at h ⊢; omega

/-- C4 counterexample: with constant `F0 = 100` and `FS = 10000` the
impulse generator emits `0`, not an impulse, at index `0` (because
`0 - last_pulse_index = 0 < period = 100`), contradicting the claimed
impulse at index 0. -/
theorem C4_counterexample : impulse_out 10000 (fun _ => 100) 0 = 0 := by
  norm_num [impulse_out, last_glot_pulse, pyRound]

set_option maxRecDepth 4000 in
/-- C4 (amended): the impulse generator maintains `last_pulse_index`,
computes `period[n] = round(FS/F0[n])`, and emits `1.0` (resetting
`last_pulse_index`) exactly when `n - last_pulse_index >= period[n]`;
consequently for constant `F0 = 100`, `FS = 10000`, `N_SAMP = 1000`,
impulses occur exactly at indices `100, 200, ..., 900` — nine impulses,
with no impulse at index 0. -/
theorem C4_impulse_mechanism_periodicity :
    (∀ (FS : ℚ) (F0 : ℕ → ℚ) (n : ℕ),
        impulse_out FS F0 n
          = if (n : ℤ) - last_glot_pulse FS F0 n ≥ pyRound (FS / F0 n)
            then 1 else 0)
    ∧ (∀ n, impulse_out 10000 (fun _ => 100) n = 1 ↔ (100 ∣ n ∧ 100 ≤ n))
    ∧ ((List.range 1000).filter (fun n => decide (100 ∣ n ∧ 100 ≤ n))).length = 9 := by
  refine ⟨fun FS F0 n => rfl, fun n => ?_, by decide⟩
  have key : impulse_out 10000 (fun _ => 100) n
      = if ((n : ℤ) - ((100 * ((n - 1) / 100) : ℕ) : ℤ) ≥ 100) then 1 else 0 := by
    simp [impulse_out, last_glot_pulse_const n, pyRound_period_100]
  rw [key]
  by_cases h : ((n : ℤ) - ((100 * ((n - 1) / 100) : ℕ) : ℤ) ≥ 100)
  · rw [if_pos h]
    simp only [eq_self_iff_true, true_iff]
    push_cast at h
    omega
  · rw [if_neg h]
    push_cast at h
    have hno : ¬ (100 ∣ n ∧ 100 ≤ n) := by omega
    simp only [hno, iff_false]
    norm_num

/-! ### Claim C5 -/

/-- The fold underlying `np_max`: the accumulator is a lower bound of the
result, and so is every list element. -/
theorem foldl_max_bounds (t : List ℚ) :
    ∀ acc : ℚ, acc ≤ t.foldl max acc ∧ ∀ a ∈ t, a ≤ t.foldl max acc := by
  induction t with
  | nil => intro acc; exact ⟨le_refl _, by simp⟩
  | cons h t ih =>
      intro acc
      constructor
      · calc acc ≤ max acc h := le_max_left _ _
          _ ≤ t.foldl max (max acc h) := (ih (max acc h)).1
      · intro a ha
        rcases List.mem_cons.mp ha with rfl | ha
        · calc a ≤ max acc a := le_max_right _ _
            _ ≤ t.foldl max (max acc a) := (ih (max acc a)).1
        · exact (ih (max acc h)).2 a ha

/-- Every element of a list is bounded by `np_max`. -/
theorem le_np_max (l : List ℚ) (a : ℚ) (ha : a ∈ l) : a ≤ np_max l := by
  match l with
  | [] => cases ha
  | h :: t =>
      rcases List.mem_cons.mp ha with rfl | hat
      · exact (foldl_max_bounds t a).1
      · exact (foldl_max_bounds t h).2 a hat

/-- The fold underlying `np_max` returns its accumulator or a list
element. -/
theorem foldl_max_mem (t : List ℚ) :
    ∀ acc : ℚ, t.foldl max acc = acc ∨ t.foldl max acc ∈ t := by
  induction t with
  | nil => intro acc; left; rfl
  | cons h t ih =>
      intro acc
      rw [List.foldl_cons]
      rcases ih (max acc h) with heq | hmem
      · rw [heq]
        rcases le_total acc h with hle | hle
        · right; rw [max_eq_right hle]; exact List.mem_cons_self h t
        · left; exact max_eq_left hle
      · right; exact List.mem_cons_of_mem h hmem

/-- The value `np_max` of a nonempty list is one of its elements. -/
theorem np_max_mem (l : List ℚ) (hl : l ≠ []) : np_max l ∈ l := by
  match l with
  | h :: t =>
      rcases foldl_max_mem t h with heq | hmem
      · rw [np_max, heq]; exact List.mem_cons_self h t
      · exact List.mem_cons_of_mem h hmem

/-- Dividing through by a positive constant commutes with the `np_max`
fold. -/
theorem foldl_max_div (M : ℚ) (hM : 0 < M) (t : List ℚ) :
    ∀ acc : ℚ, (t.map (fun v => v / M)).foldl max (acc / M)
      = t.foldl max acc / M := by
  induction t with
  | nil => intro acc; rfl
  | cons h t ih =>
      intro acc
      rw [List.map_cons, List.foldl_cons, List.foldl_cons, max_div_div_right hM.le,
          ih (max acc h)]

/-- The fold `np_max` commutes with division by a positive constant. -/
theorem np_max_map_div (M : ℚ) (hM : 0 < M) (l : List ℚ) :
    np_max (l.map (fun v => v / M)) = np_max l / M := by
  match l with
  | [] => simp [np_max]
  | h :: t => rw [List.map_cons, np_max, np_max, foldl_max_div M hM t]

/-- C5 counterexample: the `klatt.py` Normalizer divides by the *signed*
maximum, so on the buffer `[-2, 1]` (largest-magnitude sample negative) it
returns `[-2, 1]` unchanged and the maximum absolute value of its output is
`2`, not `1`. -/
theorem C5_counterexample :
    np_max ((normalize_old [-2, 1]).map (fun w => |w|)) = 2 := by
  have h1 : normalize_old [-2, 1] = [-2, 1] := by
    norm_num [normalize_old, np_max, max_def]
  rw [h1]
  have h2 : |(-2 : ℚ)| = 2 := by
    rw [abs_of_nonpos (by norm_num)]; norm_num
  have h3 : |(1 : ℚ)| = 1 := abs_of_nonneg (by norm_num)
  show np_max [|(-2 : ℚ)|, |(1 : ℚ)|] = 2
  rw [h2, h3]
  norm_num [np_max, max_def]

/-- C5 (amended): the `klattnew.py` Normalizer computes
`y[n] = x[n] / max(|x|)`, so for every buffer containing a nonzero sample —
in particular buffers whose largest-magnitude sample is negative — the
maximum absolute value of its output is exactly 1; the `klatt.py`
Normalizer instead divides by the signed maximum `max(x)`, for which the
property fails. -/
theorem C5_normalizer_peak (x : List ℚ) (hne : x ≠ []) (hnz : ∃ v ∈ x, v ≠ 0) :
    np_max ((normalize_new x).map (fun w => |w|)) = 1 := by
  obtain ⟨v, hv, hv0⟩ := hnz
  have habs : |v| ∈ x.map (fun w => |w|) := List.mem_map_of_mem _ hv
  have hM : 0 < np_max (x.map (fun w => |w|)) :=
    lt_of_lt_of_le (abs_pos.mpr hv0) (le_np_max _ _ habs)
  set M := np_max (x.map (fun w => |w|)) with hMdef
  have hmap : (normalize_new x).map (fun w => |w|)
      = (x.map (fun w => |w|)).map (fun v => v / M) := by
    rw [normalize_new, ← hMdef, List.map_map, List.map_map]
    apply List.map_congr_left
    intro a _
    simp only [Function.comp]
    rw [abs_div, abs_of_pos hM]
  rw [hmap, np_max_map_div M hM, ← hMdef, div_self (ne_of_gt hM)]

/-- Witness for C5 at the concrete buffer `[-2, 1]`. -/
theorem C5_normalizer_peak_witness :
    ([-2, 1] : List ℚ) ≠ [] ∧ (∃ v ∈ ([-2, 1] : List ℚ), v ≠ 0)
    ∧ np_max ((normalize_new [-2, 1]).map (fun w => |w|)) = 1 :=
  ⟨by decide, by decide, C5_normalizer_peak [-2, 1] (by decide) (by decide)⟩

/-! ### Claim C6 -/

/-- Python's `round` is the identity on integers. -/
theorem pyRound_intCast (m : ℤ) : pyRound ((m : ℚ)) = m := by
  norm_num [pyRound]

/-- C6 counterexample: with `fs = 10000`, `dur = 1.003`, `inv_samp = 50`
the interval-stepped engine produces `round(dur*fs/inv_samp) * inv_samp =
201 * 50 = 10050` samples, while `round(fs*dur) = 10030`. -/
theorem C6_counterexample :
    klatt_output_len 10000 (1003/1000) 50 ≠ N_SAMP 10000 (1003/1000) := by
  norm_num [klatt_output_len, n_inv, N_SAMP, pyRound]

/-- C6 (amended): the whole-buffer engine's output length is exactly
`round(FS*duration)`; the interval-stepped engine's output length is
`round(dur*fs/inv_samp) * inv_samp`, which agrees with `round(fs*dur)`
whenever `fs*dur` is an integer multiple of `inv_samp` (but not in
general). -/
theorem C6_output_lengths (FS DUR fs dur : ℚ) (inv_samp : ℕ) (k : ℤ)
    (hinv : 0 < inv_samp) (hk : dur * fs = (k : ℚ) * (inv_samp : ℚ)) :
    klattnew_output_len FS DUR = pyRound (FS * DUR)
    ∧ klatt_output_len fs dur inv_samp
        = pyRound (dur * fs / (inv_samp : ℚ)) * inv_samp
    ∧ klatt_output_len fs dur inv_samp = N_SAMP fs dur := by
  refine ⟨rfl, rfl, ?_⟩
  have hne : ((inv_samp : ℚ)) ≠ 0 := by
    exact_mod_cast Nat.pos_iff_ne_zero.mp hinv
  have hdiv : dur * fs / (inv_samp : ℚ) = (k : ℚ) := by
    rw [hk, mul_div_assoc, div_self hne, mul_one]
  have hfs : fs * dur = ((k * (inv_samp : ℤ) : ℤ) : ℚ) := by
    rw [mul_comm, hk]; push_cast; ring
  rw [klatt_output_len, n_inv, hdiv, pyRound_intCast, N_SAMP, hfs, pyRound_intCast]

/-- Witness for C6 at `FS = fs = 10000`, `DUR = dur = 1`, `inv_samp = 50`,
`k = 200`. -/
theorem C6_output_lengths_witness :
    (0 : ℕ) < 50
    ∧ (1 : ℚ) * 10000 = ((200 : ℤ) : ℚ) * (((50 : ℕ)) : ℚ)
    ∧ klatt_output_len 10000 1 50 = N_SAMP 10000 1 :=
  ⟨by decide, by norm_num,
   (C6_output_lengths 10000 1 10000 1 50 200 (by decide) (by norm_num)).2.2⟩

/-! ### Claim C7 -/

/-- C7 counterexample: with `SW = 0` the `klatt.py` engine never runs the
Parallel section in an interval, so this engine does not run every Section
regardless of the SW routing value. -/
theorem C7_counterexample : SynthSection.parallel ∉ klatt_sections_run 0 := by
  decide

/-- C7 (amended): the `klattnew.py` engine runs every Section exactly once
per run, in the fixed order VoiceSource, NoiseSource, Cascade, Parallel,
Radiation, Output (and the Output module's buffer is what `run` returns);
the `klatt.py` engine runs VoiceSource, NoiseSource, Radiation and Output
in every interval but runs Cascade exactly when `SW = 0` and Parallel
exactly when `SW = 1`. -/
theorem C7_section_schedule (sw : ℚ) :
    klattnew_sections
      = [SynthSection.voice, SynthSection.noise, SynthSection.cascade,
         SynthSection.parallel, SynthSection.radiation, SynthSection.output]
    ∧ (∀ s : SynthSection, klattnew_sections.count s = 1)
    ∧ (SynthSection.cascade ∈ klatt_sections_run sw ↔ sw = 0)
    ∧ (SynthSection.parallel ∈ klatt_sections_run sw ↔ sw = 1)
    ∧ SynthSection.voice ∈ klatt_sections_run sw
    ∧ SynthSection.noise ∈ klatt_sections_run sw
    ∧ SynthSection.radiation ∈ klatt_sections_run sw
    ∧ SynthSection.output ∈ klatt_sections_run sw := by
  refine ⟨rfl, fun s => by cases s <;> decide, ?_, ?_,
    by simp [klatt_sections_run], by simp [klatt_sections_run],
    by simp [klatt_sections_run], by simp [klatt_sections_run]⟩
  · rcases eq_or_ne sw 0 with h0 | h0
    · subst h0; simp [klatt_sections_run]
    · rcases eq_or_ne sw 1 with h1 | h1
      · subst h1; simp [klatt_sections_run]
      · simp [klatt_sections_run, h0, h1]
  · rcases eq_or_ne sw 0 with h0 | h0
    · subst h0; simp [klatt_sections_run]
    · rcases eq_or_ne sw 1 with h1 | h1
      · subst h1; simp [klatt_sections_run, h0]
      · simp [klatt_sections_run, h0, h1]

/-! ### Claim C8 -/

/-- The impulse generator's loop raises `IndexError` whenever `F0` is
shorter than the number of samples it is asked to produce: once `n`
reaches `len(F0)`, `glot_period[n]` is out of range. -/
theorem impulse_gen_go_overrun (FS : ℚ) (F0 : List ℚ) :
    ∀ (rem n : ℕ) (last : ℤ), n ≤ F0.length → F0.length < n + rem →
      impulse_gen_go FS F0 n rem last = .error "IndexError" := by
  intro rem
  induction rem with
  | zero =>
      intro n last h1 h2
      exact absurd h2 (by omega)
  | succ rem ih =>
      intro n last h1 h2
      rcases Nat.lt_or_ge n F0.length with hlt | hge
      · rw [impulse_gen_go]
        simp only [np_get, dif_pos hlt]
        rw [ih (n+1) _ (by omega) (by omega)]
      · rw [impulse_gen_go]
        simp only [np_get, dif_neg (Nat.not_lt.mpr hge)]

/-- C8 counterexample: the malformed parameter set with a 5-element `F0`
and `N_SAMP = 10` passes `KlattSynth.setup` without any error (no
validation is performed before the sections run) and then fails with an
`IndexError` inside the VoiceSource section's `impulse_gen` — not before
any Section runs. -/
theorem C8_counterexample :
    klattSynth_setup 10000 10 = .ok ()
    ∧ impulse_gen_checked 10000 [100, 100, 100, 100, 100] 10
      = .error "IndexError" :=
  ⟨rfl, impulse_gen_go_overrun 10000 [100, 100, 100, 100, 100] 10 0 0
    (by decide) (by decide)⟩

/-- C8 (amended): the synthesizer performs no parameter validation before
the sections run: `setup` succeeds for every parameter set whose `N_SAMP`
is nonnegative and whose `FS` is nonzero (only `np.zeros(N_SAMP)` and
`1/FS` can fail there), and a mismatched `F0` length only surfaces as an
`IndexError` raised inside the VoiceSource section's run, after which no
waveform is produced (the exception propagates instead of a buffer being
returned). -/
theorem C8_no_early_validation (FS : ℚ) (F0 : List ℚ) (FSZ NSAMP : ℤ) (N : ℕ)
    (hNS : 0 ≤ NSAMP) (hFSZ : FSZ ≠ 0) (hlen : F0.length < N) :
    klattSynth_setup FSZ NSAMP = .ok ()
    ∧ impulse_gen_checked FS F0 N = .error "IndexError" := by
  constructor
  · rw [klattSynth_setup, if_neg (by omega), if_neg hFSZ]
  · exact impulse_gen_go_overrun FS F0 N 0 0 (by omega) (by omega)

/-- Witness for C8 at `FS = 8000` (as a nonzero integer setting), a
3-element `F0` and `N_SAMP = 4`. -/
theorem C8_no_early_validation_witness :
    (0 : ℤ) ≤ 4 ∧ (8000 : ℤ) ≠ 0 ∧ ([50, 50, 50] : List ℚ).length < 4
    ∧ klattSynth_setup 8000 4 = .ok ()
    ∧ impulse_gen_checked 8000 [50, 50, 50] 4 = .error "IndexError" :=
  ⟨by decide, by decide, by decide,
   C8_no_early_validation 8000 [50, 50, 50] 8000 4 4 (by decide) (by decide)
     (by decide)⟩

/-! ### Claim C9 -/

/-- Evaluating `np.interp` at or left of the first grid point returns the
first data value. -/
theorem np_interp_le_head (t x1 : ℚ) (xs : List ℚ) (y1 : ℚ) (ys : List ℚ)
    (hlen : xs.length = ys.length) (ht : t ≤ x1) :
    np_interp t (x1 :: xs) (y1 :: ys) = y1 := by
  match xs, ys with
  | [], [] => rfl
  | x2 :: xs, y2 :: ys => simp only [np_interp]; rw [if_pos ht]
  | [], _ :: _ => simp at hlen
  | _ :: _, [] => simp at hlen

/-- Evaluating `np.interp` exactly at the last grid point (all earlier grid
points lying strictly below it) returns the last data value. -/
theorem np_interp_last (t : ℚ) :
    ∀ (xs ys : List ℚ) (r : ℚ), xs.length = ys.length →
      (∀ i : ℕ, i + 1 < xs.length → xs.getD i 0 < t) →
      xs.getLast? = some t → ys.getLast? = some r →
      np_interp t xs ys = r := by
  intro xs
  induction xs with
  | nil => intro ys r _ _ hxl; simp at hxl
  | cons x1 rest ih =>
      intro ys r hlen hmono hxl hyl
      rcases rest with _ | ⟨x2, rest2⟩
      · rcases ys with _ | ⟨y1, ys'⟩
        · simp at hlen
        · rcases ys' with _ | ⟨y2, ys2⟩
          · have : y1 = r := by simpa using hyl
            simpa [np_interp] using this
          · simp at hlen
      · rcases ys with _ | ⟨y1, ys'⟩
        · simp at hlen
        · rcases ys' with _ | ⟨y2, ys2⟩
          · simp at hlen
          · have hx1 : x1 < t := by
              have h := hmono 0 (by simp only [List.length_cons]; omega)
              simpa using h
            simp only [np_interp]
            rw [if_neg (not_le.mpr hx1)]
            rcases rest2 with _ | ⟨x3, rest3⟩
            · rcases ys2 with _ | ⟨y3, ys3⟩
              · have hx2 : x2 = t := by simpa using hxl
                have hr : y2 = r := by simpa using hyl
                rw [if_pos (le_of_eq hx2.symm)]
                have hlt : x1 < x2 := by rw [hx2]; exact hx1
                have hne : x2 - x1 ≠ 0 := sub_ne_zero.mpr (ne_of_gt hlt)
                rw [← hr, ← hx2, mul_div_cancel_left₀ _ hne]
                ring
              · simp at hlen
            · rcases ys2 with _ | ⟨y3, ys3⟩
              · simp at hlen
              · have hx2t : x2 < t := by
                  have h := hmono 1 (by simp only [List.length_cons]; omega)
                  simpa using h
                rw [if_neg (not_le.mpr hx2t)]
                apply ih (y2 :: y3 :: ys3) r
                · simpa using hlen
                · intro i hi
                  have h := hmono (i+1) (by simp only [List.length_cons] at hi ⊢; omega)
                  simpa using h
                · simpa using hxl
                · simpa using hyl

/-- The grid `np_linspace 0 1 n` for `n ≥ 2` as an explicit map over `range n`. -/
theorem np_linspace_map (n : ℕ) (hn : 2 ≤ n) :
    np_linspace 0 1 n
      = (List.range n).map (fun (i : ℕ) => (0 : ℚ) + (1 - 0) * (i : ℚ) / ((n : ℚ) - 1)) := by
  rw [np_linspace, if_neg (by omega)]

/-- The grid `np_linspace` has `n` points. -/
theorem np_linspace_length (a b : ℚ) (n : ℕ) : (np_linspace a b n).length = n := by
  rw [np_linspace]
  split
  · simp [*]
  · simp

/-- The grid `np_linspace 0 1 L` starts at `0` (for any nonempty grid). -/
theorem np_linspace_zero_one_head (L : ℕ) (hL : 1 ≤ L) :
    ∃ rest, np_linspace 0 1 L = 0 :: rest ∧ rest.length = L - 1 := by
  rcases Nat.lt_or_ge L 2 with h2 | h2
  · have h1 : L = 1 := by omega
    subst h1
    exact ⟨[], by rw [np_linspace, if_pos rfl], rfl⟩
  · obtain ⟨m, rfl⟩ : ∃ m, L = m + 1 := ⟨L - 1, by omega⟩
    refine ⟨((List.range m).map Nat.succ).map
        (fun (i : ℕ) => (0 : ℚ) + (1 - 0) * (i : ℚ) / (((m + 1 : ℕ) : ℚ) - 1)), ?_, by simp⟩
    rw [np_linspace_map _ h2, List.range_succ_eq_map, List.map_cons, List.map_map]
    congr 1
    norm_num

/-- The grid `np_linspace 0 1 n` ends exactly at `1` when `n ≥ 2`. -/
theorem np_linspace_zero_one_getLast (n : ℕ) (hn : 2 ≤ n) :
    (np_linspace 0 1 n).getLast? = some 1 := by
  obtain ⟨m, rfl⟩ : ∃ m, n = m + 1 := ⟨n - 1, by omega⟩
  rw [np_linspace_map _ hn, List.range_succ, List.map_append, List.map_cons,
      List.map_nil, List.getLast?_concat]
  have hm : ((m : ℚ)) ≠ 0 := by
    have h1 : 1 ≤ m := by omega
    exact_mod_cast Nat.one_le_iff_ne_zero.mp h1
  congr 1
  push_cast
  field_simp

/-- Every grid point of `np_linspace 0 1 L` except the last lies strictly
below `1` when `L ≥ 2`. -/
theorem np_linspace_zero_one_mono (L : ℕ) (hL : 2 ≤ L) (i : ℕ)
    (hi : i + 1 < L) : (np_linspace 0 1 L).getD i 0 < 1 := by
  rw [np_linspace_map _ hL, List.getD_eq_getElem?_getD, List.getElem?_map,
      List.getElem?_range (by omega : i < L)]
  simp only [Option.map_some', Option.getD_some]
  have hpos : (0 : ℚ) < (L : ℚ) - 1 := by
    have h2 : (2 : ℚ) ≤ (L : ℚ) := by exact_mod_cast hL
    linarith
  have hlt : (i : ℚ) < (L : ℚ) - 1 := by
    have h2 : (i : ℚ) + 1 + 1 ≤ (L : ℚ) := by exact_mod_cast hi
    linarith
  have hform : (0 : ℚ) + (1 - 0) * (i : ℚ) / ((L : ℚ) - 1) = (i : ℚ) / ((L : ℚ) - 1) := by
    ring
  rw [hform, div_lt_one hpos]
  exact hlt

/-- C9 counterexample: expansion of the track `[0, 1]` to target length
`n = 1` yields the single sample `[0]`, whose last element is the *first*
control point, not the last one — the claimed endpoint preservation fails
for `n = 1`. -/
theorem C9_counterexample :
    ¬ ((klatt_trackterpolate [0, 1] 1).getLast? = ([0, 1] : List ℚ).getLast?) := by
  have hgrid : np_linspace 0 1 2 = [0, 1] := by
    rw [np_linspace, if_neg (by omega)]
    rw [show List.range 2 = [0, 1] from rfl]
    norm_num
  have h1 : klatt_trackterpolate [0, 1] 1 = [0] := by
    rw [klatt_trackterpolate, show ([0, 1] : List ℚ).length = 2 from rfl, hgrid]
    rw [show np_linspace 0 1 1 = [0] from by rw [np_linspace, if_pos rfl]]
    rw [List.map_cons, List.map_nil]
    congr 1
  rw [h1]
  decide

/-- C9 (amended): expansion by linear interpolation over the normalized
domain `[0,1]` preserves endpoints for every non-empty track and every
target length `n ≥ 2`: the first output sample equals the track's first
control point and the last output sample its last control point.  (For
`n = 1` the single output sample equals the *first* control point.) -/
theorem C9_trackterpolate_endpoints (track : List ℚ) (n : ℕ)
    (hne : track ≠ []) (hn : 2 ≤ n) :
    (klatt_trackterpolate track n).head? = track.head?
    ∧ (klatt_trackterpolate track n).getLast? = track.getLast? := by
  obtain ⟨t1, trest, rfl⟩ := List.exists_cons_of_ne_nil hne
  obtain ⟨srest, hsg, hslen⟩ :=
    np_linspace_zero_one_head (t1 :: trest).length (by simp)
  obtain ⟨tgrest, htg, _⟩ := np_linspace_zero_one_head n (by omega)
  constructor
  · rw [klatt_trackterpolate, List.head?_map, htg]
    simp only [List.head?_cons, Option.map_some']
    congr 1
    rw [hsg]
    exact np_interp_le_head 0 0 srest t1 trest (by simp at hslen ⊢; omega) le_rfl
  · rw [klatt_trackterpolate, List.getLast?_map, np_linspace_zero_one_getLast n hn]
    rcases trest with _ | ⟨t2, trest2⟩
    · simp only [Option.map_some']
      rw [show np_linspace 0 1 ([t1] : List ℚ).length = [0] from by
        rw [np_linspace]; simp]
      simp [np_interp]
    · obtain ⟨r, hr⟩ : ∃ r, (t1 :: t2 :: trest2).getLast? = some r :=
        ⟨(t1 :: t2 :: trest2).getLast (by simp), List.getLast?_eq_getLast _ _⟩
      rw [hr]
      simp only [Option.map_some']
      congr 1
      refine np_interp_last 1 (np_linspace 0 1 (t1 :: t2 :: trest2).length)
        (t1 :: t2 :: trest2) r (by rw [np_linspace_length]) ?_ ?_ hr
      · intro i hi
        rw [np_linspace_length] at hi
        exact np_linspace_zero_one_mono _ (by simp) i hi
      · exact np_linspace_zero_one_getLast _ (by simp)

/-- Witness for C9 at the track `[3, 7]` expanded to length 4. -/
theorem C9_trackterpolate_endpoints_witness :
    ([3, 7] : List ℚ) ≠ [] ∧ (2 : ℕ) ≤ 4
    ∧ (klatt_trackterpolate [3, 7] 4).head? = ([3, 7] : List ℚ).head?
    ∧ (klatt_trackterpolate [3, 7] 4).getLast? = ([3, 7] : List ℚ).getLast? :=
  ⟨by decide, by decide,
   (C9_trackterpolate_endpoints [3, 7] 4 (by decide) (by decide)).1,
   (C9_trackterpolate_endpoints [3, 7] 4 (by decide) (by decide)).2⟩

end TrackDraw
